import Mathlib

/-!
Verification of the SimpleHash commitment scheme
(`include/interactive_mid_protocols/CommitmentSchemeSimpleHash.hpp`).

The repository ships only the header: class declarations, protocol pseudocode
in comments, and the API surface. The method bodies (`computeCommitment`,
`generateCommitmentMsg`, `generateDecommitmentMsg`, `receiveCommitment`,
`receiveDecommitment`, `verifyDecommitment`, the `toString` /
`initFromString` codecs) live in a `.cpp` file that is not part of this
source tree, so those operations are modelled from the specification's
description of them, faithful to its words; definitions taken directly from
the header are marked as such.

Bytes are modelled as natural numbers, byte sequences as `List Nat`.
The hash collaborator is an arbitrary function `List Nat → List Nat`;
the secure random source is an arbitrary stream `Nat → Nat` read at a
cursor that the committer advances.
-/

/-- Byte sequences: the model of `vector<byte>`. -/
abbrev ByteSeq := List Nat

/-- Modelled from the spec: little-endian fixed-width encoding of an
unsigned integer into `w` bytes, used by the wire codec for the id and the
length fields ("fixed-width integer" in the wire-format section). -/
def natToLE : Nat → Nat → ByteSeq
  | 0, _ => []
  | w + 1, k => k % 256 :: natToLE w (k / 256)

/-- Modelled from the spec: little-endian decoding, inverse of `natToLE`. -/
def leToNat : ByteSeq → Nat
  | [] => 0
  | b :: bs => b + 256 * leToNat bs

/-- Modelled from the spec: two's-complement encoding of the 64-bit signed
commitment id into an unsigned 64-bit value. -/
def idToNat (id : Int) : Nat := (id % (2 ^ 64 : Int)).toNat

/-- Modelled from the spec: two's-complement decoding of an unsigned 64-bit
value back into a signed id. -/
def natToId (k : Nat) : Int :=
  if k < 2 ^ 63 then (k : Int) else (k : Int) - 2 ^ 64

/-- Modelled from the spec: reading one length-delimited field of the wire
format (an 8-byte length followed by that many raw bytes); returns the field
and the remaining bytes. -/
def parseLenField (s : ByteSeq) : Option (ByteSeq × ByteSeq) :=
  if 8 ≤ s.length then
    let len := leToNat (s.take 8)
    let rest := s.drop 8
    if len ≤ rest.length then some (rest.take len, rest.drop len) else none
  else none

/-- From the header: the commitment message `CmtSimpleHashCommitmentMessage`,
holding a nullable commitment byte array `c` (a `shared_ptr<vector<byte>>`,
modelled as `Option`) and a `long id`. -/
structure CmtSimpleHashCommitmentMessage where
  c : Option ByteSeq
  id : Int
deriving DecidableEq

namespace CmtSimpleHashCommitmentMessage

/-- From the header: the no-argument construction
`CmtSimpleHashCommitmentMessage(shared_ptr<vector<byte>> c = NULL, long id = 0)`
called with both defaults. -/
def mk0 : CmtSimpleHashCommitmentMessage := ⟨none, 0⟩

/-- From the header: `getCommitment` returns the stored (possibly null)
commitment. -/
def getCommitment (m : CmtSimpleHashCommitmentMessage) : Option ByteSeq := m.c

/-- From the header: `getId` returns the commitment id. -/
def getId (m : CmtSimpleHashCommitmentMessage) : Int := m.id

/-- Modelled from the spec: serialization of a commitment message, whose body
is absent from the tree. Wire format: an 8-byte signed id, then a
length-delimited digest. A message holding no commitment cannot be
serialized. -/
def toString (m : CmtSimpleHashCommitmentMessage) : Option ByteSeq :=
  match m.c with
  | none => none
  | some d => some (natToLE 8 (idToNat m.id) ++ (natToLE 8 d.length ++ d))

/-- Modelled from the spec: deserialization of a commitment message, whose
body is absent from the tree; inverse of `toString`, rejecting trailing
bytes. -/
def initFromString (s : ByteSeq) : Option CmtSimpleHashCommitmentMessage :=
  if 8 ≤ s.length then
    match parseLenField (s.drop 8) with
    | some (d, rest) =>
        if rest = [] then some ⟨some d, natToId (leToNat (s.take 8))⟩ else none
    | none => none
  else none

end CmtSimpleHashCommitmentMessage

/-- From the header: the decommitment message
`CmtSimpleHashDecommitmentMessage`, holding a nullable random value `r`
(a `shared_ptr<ByteArrayRandomValue>`, modelled as `Option`) and the
committed bytes `x`. -/
structure CmtSimpleHashDecommitmentMessage where
  r : Option ByteSeq
  x : ByteSeq
deriving DecidableEq

namespace CmtSimpleHashDecommitmentMessage

/-- From the header: `getX` returns the committed value. -/
def getX (m : CmtSimpleHashDecommitmentMessage) : ByteSeq := m.x

/-- From the header: `getR` returns the stored random value. -/
def getR (m : CmtSimpleHashDecommitmentMessage) : Option ByteSeq := m.r

/-- Modelled from the spec: serialization of a decommitment message, whose
body is absent from the tree. Wire format: a length-delimited blinding value
`r` followed by a length-delimited committed value `x`. -/
def toString (m : CmtSimpleHashDecommitmentMessage) : Option ByteSeq :=
  match m.r with
  | none => none
  | some rv => some ((natToLE 8 rv.length ++ rv) ++ (natToLE 8 m.x.length ++ m.x))

/-- Modelled from the spec: deserialization of a decommitment message, whose
body is absent from the tree; inverse of `toString`, rejecting trailing
bytes. -/
def initFromString (s : ByteSeq) : Option CmtSimpleHashDecommitmentMessage :=
  match parseLenField s with
  | some (rv, rest) =>
      match parseLenField rest with
      | some (xv, rest2) => if rest2 = [] then some ⟨some rv, xv⟩ else none
      | none => none
  | none => none

end CmtSimpleHashDecommitmentMessage

/-- Modelled from the spec: the hash collaborator's accumulate/finalize
interface (`update(bytes)` then `finalize()`), with a counter of finalize
calls so that "the hash is invoked exactly once" is observable. -/
structure HashDevice where
  buf : ByteSeq
  finalCount : Nat
deriving DecidableEq

/-- Modelled from the spec: `update(bytes)` appends to the accumulated
buffer. -/
def hashUpdate (st : HashDevice) (bytes : ByteSeq) : HashDevice :=
  ⟨st.buf ++ bytes, st.finalCount⟩

/-- Modelled from the spec: `finalize()` hashes the accumulated buffer with
the digest function `h`, resets the buffer and bumps the invocation
counter. -/
def hashFinal (h : ByteSeq → ByteSeq) (st : HashDevice) : ByteSeq × HashDevice :=
  (h st.buf, ⟨[], st.finalCount + 1⟩)

/-- Modelled from the spec: `CmtSimpleHashCommitter::computeCommitment`,
whose body is absent from the tree — "computes the hash function on the
concatenation of the inputs", feeding `r` first and then `x` to the hash
device and finalizing once. Argument order `(x, r)` follows the header's
declaration. -/
def computeCommitment (h : ByteSeq → ByteSeq) (x r : ByteSeq) (st : HashDevice) :
    ByteSeq × HashDevice :=
  hashFinal h (hashUpdate (hashUpdate st r) x)

/-- Modelled from the spec: the digest `c = Hash(r ‖ x)` as computed by
`computeCommitment` on a freshly reset hash device. -/
def hashOf (h : ByteSeq → ByteSeq) (x r : ByteSeq) : ByteSeq :=
  (computeCommitment h x r ⟨[], 0⟩).1

/-- Modelled from the spec: the error taxonomy of §7. -/
inductive CmtError where
  | CommunicationError
  | FormatError
  | UnknownSessionError
  | DuplicateSessionError
  | RandomnessError
deriving DecidableEq

/-- Modelled from the spec: the verdict of decommitment verification —
ACCEPT with the revealed value, or REJECT; a first-class value, not an
error. -/
inductive CmtVerdict where
  | ACCEPT (x : ByteSeq)
  | REJECT
deriving DecidableEq

/-- Modelled from the spec: `PendingCommitterState` — the tuple
`(id, r, x, c)` the committer keeps between commit and decommit. -/
structure PendingCommitterState where
  id : Int
  r : ByteSeq
  x : ByteSeq
  c : ByteSeq
deriving DecidableEq

/-- Modelled from the spec: the committer's mutable protocol state — the
pending-session table and the cursor into the random stream. -/
structure CommitterState where
  pending : List PendingCommitterState
  pos : Nat
deriving DecidableEq

/-- Modelled from the spec: sampling `n` fresh bytes from the random stream
`rng` at cursor `pos`. -/
def sampleSeg (rng : Nat → Nat) (pos n : Nat) : ByteSeq :=
  (List.range n).map fun i => rng (pos + i) % 256

/-- Modelled from the spec: `CmtSimpleHashCommitter::generateCommitmentMsg`,
whose body is absent from the tree — samples a fresh `r` of `n` bytes,
computes `c = Hash(r ‖ x)`, stores `PendingCommitterState(id, r, x, c)` and
returns the commitment message `{id, c}`; an id already pending is rejected
(§7 `DuplicateSessionError`). -/
def generateCommitmentMsg (h : ByteSeq → ByteSeq) (rng : Nat → Nat) (n : Nat)
    (st : CommitterState) (x : ByteSeq) (id : Int) :
    Except CmtError (CmtSimpleHashCommitmentMessage × CommitterState) :=
  if st.pending.any (fun p => p.id == id) then
    .error .DuplicateSessionError
  else
    .ok (⟨some (hashOf h x (sampleSeg rng st.pos n)), id⟩,
      ⟨⟨id, sampleSeg rng st.pos n, x, hashOf h x (sampleSeg rng st.pos n)⟩ :: st.pending,
        st.pos + n⟩)

/-- Modelled from the spec: `CmtSimpleHashCommitter::generateDecommitmentMsg`,
whose body is absent from the tree — looks up the pending state for `id`,
failing with an unknown-session error if absent, and returns `{r, x}`
without removing the entry. -/
def generateDecommitmentMsg (st : CommitterState) (id : Int) :
    Except CmtError CmtSimpleHashDecommitmentMessage :=
  match st.pending.find? (fun p => p.id == id) with
  | none => .error .UnknownSessionError
  | some p => .ok ⟨some p.r, p.x⟩

/-- Modelled from the spec: `PendingReceiverState` — the tuple `(id, c)`
recording only the received digest. -/
structure PendingReceiverState where
  id : Int
  c : ByteSeq
deriving DecidableEq

/-- Modelled from the spec: the receiver's mutable protocol state — the
pending-session table, together with the ids already resolved to a verdict.
The resolved ids must be remembered because the state machine of §4.2 makes
ACCEPTED/REJECTED terminal (§3: a resolved id "cannot be resolved again";
§4.2: "No id re-enters COMMITTED after resolution"), which a pending table
alone cannot enforce once the entry is removed on resolution. -/
structure ReceiverState where
  pending : List PendingReceiverState
  resolved : List Int
deriving DecidableEq

/-- Modelled from the spec: `CmtSimpleHashReceiver::receiveCommitment`,
whose body is absent from the tree — deserializes one commitment message
from the received bytes, fails with a format error if they do not parse,
fails with a duplicate-id error if the id is already pending or already
resolved (an id in a terminal state may not re-enter COMMITTED, per the
§3/§4.2 invariant), otherwise stores `PendingReceiverState(id, c)` and
returns the id. -/
def receiveCommitment (st : ReceiverState) (w : ByteSeq) :
    Except CmtError (Int × ReceiverState) :=
  match CmtSimpleHashCommitmentMessage.initFromString w with
  | none => .error .FormatError
  | some m =>
    match m.c with
    | none => .error .FormatError
    | some d =>
      if st.pending.any (fun p => p.id == m.id) || st.resolved.contains m.id then
        .error .DuplicateSessionError
      else .ok (m.id, ⟨⟨m.id, d⟩ :: st.pending, st.resolved⟩)

/-- Modelled from the spec: `CmtSimpleHashReceiver::receiveDecommitment`,
whose body is absent from the tree — deserializes `(r, x)` from the received
bytes, looks up the pending digest for `id` (unknown-session error if
absent), recomputes `c' = Hash(r ‖ x)`, removes the pending entry, records
the id as resolved (terminal, per §3/§4.2), and returns ACCEPT with `x` on
equality and REJECT on inequality. -/
def receiveDecommitment (h : ByteSeq → ByteSeq) (st : ReceiverState) (id : Int)
    (w : ByteSeq) : Except CmtError (CmtVerdict × ReceiverState) :=
  match CmtSimpleHashDecommitmentMessage.initFromString w with
  | none => .error .FormatError
  | some m =>
    match m.r with
    | none => .error .FormatError
    | some rv =>
      match st.pending.find? (fun p => p.id == id) with
      | none => .error .UnknownSessionError
      | some p =>
        if hashOf h m.x rv = p.c then
          .ok (.ACCEPT m.x, ⟨st.pending.filter (fun q => q.id != id), id :: st.resolved⟩)
        else
          .ok (.REJECT, ⟨st.pending.filter (fun q => q.id != id), id :: st.resolved⟩)

/-- Modelled from the spec: `CmtSimpleHashReceiver::verifyDecommitment`,
whose body is absent from the tree — the pure variant taking both messages
explicitly: recomputes the digest from the decommitment's `(r, x)` and
compares it with the commitment message's `c`; null fields have no defined
verification. -/
def verifyDecommitment (h : ByteSeq → ByteSeq)
    (cm : CmtSimpleHashCommitmentMessage) (dm : CmtSimpleHashDecommitmentMessage) :
    Option CmtVerdict :=
  match cm.c, dm.r with
  | some c, some rv =>
      some (if hashOf h dm.x rv = c then .ACCEPT dm.x else .REJECT)
  | _, _ => none

/-- Modelled from the spec: `verifyDecommitment` as invoked on a receiver
instance carrying its pending-session state, which it neither reads nor
writes. -/
def verifyDecommitmentM (h : ByteSeq → ByteSeq) (st : ReceiverState)
    (cm : CmtSimpleHashCommitmentMessage) (dm : CmtSimpleHashDecommitmentMessage) :
    Option CmtVerdict × ReceiverState :=
  (verifyDecommitment h cm dm, st)

/-- Modelled from the spec: one observable state-changing receiver
operation — receiving a commitment message, or receiving a decommitment for
an id. -/
inductive ReceiverOp where
  | commit (w : ByteSeq)
  | decommit (id : Int) (w : ByteSeq)

/-- Modelled from the spec: the receiver's stored state after one operation;
a failed operation surfaces its error to the caller (§7) and leaves the
stored state unchanged. -/
def applyReceiverOp (h : ByteSeq → ByteSeq) (st : ReceiverState) :
    ReceiverOp → ReceiverState
  | .commit w =>
    match receiveCommitment st w with
    | .ok (_, st') => st'
    | .error _ => st
  | .decommit id w =>
    match receiveDecommitment h st id w with
    | .ok (_, st') => st'
    | .error _ => st

/-- Modelled from the spec: the receiver's stored state after a sequence of
operations. -/
def applyReceiverOps (h : ByteSeq → ByteSeq) (st : ReceiverState)
    (ops : List ReceiverOp) : ReceiverState :=
  ops.foldl (applyReceiverOp h) st

/-- Modelled from the spec: the terminal-state condition of §3/§4.2 for one
session id — the id is recorded as resolved and has no pending entry. -/
def TerminalFor (st : ReceiverState) (id : Int) : Prop :=
  id ∈ st.resolved ∧ ∀ p ∈ st.pending, p.id ≠ id

/-! Basic facts about the wire encoding. -/

theorem natToLE_length (w k : Nat) : (natToLE w k).length = w := by
  induction w generalizing k with
  | zero => rfl
  | succ w ih => simp [natToLE, ih]

theorem leToNat_natToLE (w k : Nat) (hk : k < 256 ^ w) :
    leToNat (natToLE w k) = k := by
  induction w generalizing k with
  | zero =>
    simp [natToLE, leToNat]
    omega
  | succ w ih =>
    have hdiv : k / 256 < 256 ^ w := by
      apply Nat.div_lt_of_lt_mul
      rw [pow_succ] at hk
      omega
    simp [natToLE, leToNat, ih _ hdiv]
    omega

theorem idToNat_lt (id : Int) : idToNat id < 2 ^ 64 := by
  unfold idToNat
  omega

theorem natToId_idToNat (id : Int) (hlo : -(2 ^ 63) ≤ id) (hhi : id < 2 ^ 63) :
    natToId (idToNat id) = id := by
  unfold natToId idToNat
  split <;> omega

theorem take_eight_append (a b : ByteSeq) (ha : a.length = 8) :
    (a ++ b).take 8 = a := by
  rw [← ha]
  simp

theorem drop_eight_append (a b : ByteSeq) (ha : a.length = 8) :
    (a ++ b).drop 8 = b := by
  rw [← ha]
  simp

theorem parseLenField_round (l t : ByteSeq) (hl : l.length < 2 ^ 64) :
    parseLenField ((natToLE 8 l.length ++ l) ++ t) = some (l, t) := by
  have hlen8 : (natToLE 8 l.length).length = 8 := natToLE_length 8 l.length
  have htake : ((natToLE 8 l.length ++ l) ++ t).take 8 = natToLE 8 l.length := by
    rw [List.append_assoc]
    exact take_eight_append _ _ hlen8
  have hdrop : ((natToLE 8 l.length ++ l) ++ t).drop 8 = l ++ t := by
    rw [List.append_assoc]
    exact drop_eight_append _ _ hlen8
  have hge : 8 ≤ ((natToLE 8 l.length ++ l) ++ t).length := by
    simp [hlen8]
  unfold parseLenField
  rw [if_pos hge, htake, hdrop, leToNat_natToLE 8 l.length (by norm_num; omega)]
  rw [if_pos (by simp)]
  simp

theorem cmtMsg_toString_eq (d : ByteSeq) (id : Int) :
    CmtSimpleHashCommitmentMessage.toString ⟨some d, id⟩ =
      some (natToLE 8 (idToNat id) ++ (natToLE 8 d.length ++ d)) := rfl

theorem cmtMsg_round (d : ByteSeq) (id : Int)
    (hlo : -(2 ^ 63) ≤ id) (hhi : id < 2 ^ 63) (hd : d.length < 2 ^ 64) :
    CmtSimpleHashCommitmentMessage.initFromString
      (natToLE 8 (idToNat id) ++ (natToLE 8 d.length ++ d)) =
      some ⟨some d, id⟩ := by
  have hlen8 : (natToLE 8 (idToNat id)).length = 8 := natToLE_length 8 (idToNat id)
  have htake := take_eight_append (natToLE 8 (idToNat id)) (natToLE 8 d.length ++ d) hlen8
  have hdrop := drop_eight_append (natToLE 8 (idToNat id)) (natToLE 8 d.length ++ d) hlen8
  have hfield : parseLenField (natToLE 8 d.length ++ d) = some (d, []) := by
    have h := parseLenField_round d [] hd
    simpa using h
  have hge : 8 ≤ (natToLE 8 (idToNat id) ++ (natToLE 8 d.length ++ d)).length := by
    simp [hlen8]
  unfold CmtSimpleHashCommitmentMessage.initFromString
  rw [if_pos hge, hdrop, hfield]
  simp only [if_pos rfl, htake]
  rw [leToNat_natToLE 8 (idToNat id) (by have := idToNat_lt id; norm_num; omega),
    natToId_idToNat id hlo hhi]
  simp

theorem dcmMsg_toString_eq (rv xv : ByteSeq) :
    CmtSimpleHashDecommitmentMessage.toString ⟨some rv, xv⟩ =
      some ((natToLE 8 rv.length ++ rv) ++ (natToLE 8 xv.length ++ xv)) := rfl

theorem dcmMsg_round (rv xv : ByteSeq)
    (hr : rv.length < 2 ^ 64) (hx : xv.length < 2 ^ 64) :
    CmtSimpleHashDecommitmentMessage.initFromString
      ((natToLE 8 rv.length ++ rv) ++ (natToLE 8 xv.length ++ xv)) =
      some ⟨some rv, xv⟩ := by
  have h1 : parseLenField ((natToLE 8 rv.length ++ rv) ++ (natToLE 8 xv.length ++ xv)) =
      some (rv, natToLE 8 xv.length ++ xv) := parseLenField_round rv _ hr
  have h2 : parseLenField (natToLE 8 xv.length ++ xv) = some (xv, []) := by
    have h := parseLenField_round xv [] hx
    simpa using h
  unfold CmtSimpleHashDecommitmentMessage.initFromString
  rw [h1]
  simp [h2]

/-! Helper lemmas about the protocol operations. -/

theorem hashOf_eq (h : ByteSeq → ByteSeq) (x r : ByteSeq) :
    hashOf h x r = h (r ++ x) := by
  simp [hashOf, computeCommitment, hashUpdate, hashFinal]

theorem set_ne_of_ne_get (l : ByteSeq) (i b : Nat) (hi : i < l.length)
    (hb : b ≠ l.get ⟨i, hi⟩) : l.set i b ≠ l := by
  intro hset
  apply hb
  have h1 : (l.set i b)[i]? = some b := List.getElem?_set_eq_of_lt b hi
  rw [hset] at h1
  have h2 : l[i]? = some (l.get ⟨i, hi⟩) := by simp [List.getElem?_eq_getElem hi]
  exact Option.some_injective _ (h1.symm.trans h2)

theorem generateCommitmentMsg_ok (h : ByteSeq → ByteSeq) (rng : Nat → Nat)
    (n : Nat) (st : CommitterState) (x : ByteSeq) (id : Int)
    (m : CmtSimpleHashCommitmentMessage) (st' : CommitterState)
    (hok : generateCommitmentMsg h rng n st x id = .ok (m, st')) :
    m = ⟨some (hashOf h x (sampleSeg rng st.pos n)), id⟩ ∧
    st' = ⟨⟨id, sampleSeg rng st.pos n, x, hashOf h x (sampleSeg rng st.pos n)⟩ ::
      st.pending, st.pos + n⟩ := by
  unfold generateCommitmentMsg at hok
  split at hok
  · exact absurd hok (by simp)
  · simp only [Except.ok.injEq, Prod.mk.injEq] at hok
    exact ⟨hok.1.symm, hok.2.symm⟩

theorem receiveDecommitment_ok_state (h : ByteSeq → ByteSeq) (st : ReceiverState)
    (id : Int) (w : ByteSeq) (v : CmtVerdict) (st' : ReceiverState)
    (hok : receiveDecommitment h st id w = .ok (v, st')) :
    st' = ⟨st.pending.filter (fun q => q.id != id), id :: st.resolved⟩ := by
  unfold receiveDecommitment at hok
  split at hok
  · exact absurd hok (by simp)
  · split at hok
    · exact absurd hok (by simp)
    · split at hok
      · exact absurd hok (by simp)
      · split at hok <;>
        · simp only [Except.ok.injEq, Prod.mk.injEq] at hok
          exact hok.2.symm

theorem find?_filter_ne_id (l : List PendingReceiverState) (id : Int) :
    (l.filter (fun q => q.id != id)).find? (fun p => p.id == id) = none := by
  apply List.find?_eq_none.2
  intro p hp
  have hmem := List.of_mem_filter hp
  simp at hmem ⊢
  exact hmem

theorem receiveCommitment_ok_shape (st : ReceiverState) (w : ByteSeq)
    (rid : Int) (st' : ReceiverState)
    (hok : receiveCommitment st w = .ok (rid, st')) :
    rid ∉ st.resolved ∧ ∃ d, st' = ⟨⟨rid, d⟩ :: st.pending, st.resolved⟩ := by
  unfold receiveCommitment at hok
  split at hok
  · exact absurd hok (by simp)
  · split at hok
    · exact absurd hok (by simp)
    · split at hok
      · exact absurd hok (by simp)
      · rename_i xscr m meq cscr d heqc hguard
        simp only [Except.ok.injEq, Prod.mk.injEq] at hok
        obtain ⟨hrid, hst'⟩ := hok
        subst hrid
        simp only [Bool.or_eq_true, not_or, Bool.not_eq_true] at hguard
        constructor
        · intro hmem
          have hcon : st.resolved.contains m.id = true := by simpa using hmem
          rw [hguard.2] at hcon
          exact absurd hcon (by simp)
        · exact ⟨d, hst'.symm⟩

theorem terminalFor_applyReceiverOp (h : ByteSeq → ByteSeq)
    (st : ReceiverState) (id : Int) (op : ReceiverOp)
    (hter : TerminalFor st id) : TerminalFor (applyReceiverOp h st op) id := by
  cases op with
  | commit w =>
    simp only [applyReceiverOp]
    cases hres : receiveCommitment st w with
    | error e => exact hter
    | ok pr =>
      obtain ⟨rid, st'⟩ := pr
      obtain ⟨hnotres, d, hst'⟩ := receiveCommitment_ok_shape st w rid st' hres
      subst hst'
      refine ⟨hter.1, ?_⟩
      intro p hp
      rcases List.mem_cons.1 hp with hhead | htail
      · subst hhead
        intro hpid
        have hr2 : rid = id := hpid
        exact hnotres (by rw [hr2]; exact hter.1)
      · exact hter.2 p htail
  | decommit id2 w =>
    simp only [applyReceiverOp]
    cases hres : receiveDecommitment h st id2 w with
    | error e => exact hter
    | ok pr =>
      obtain ⟨v, st'⟩ := pr
      have hst' := receiveDecommitment_ok_state h st id2 w v st' hres
      subst hst'
      refine ⟨List.mem_cons_of_mem _ hter.1, ?_⟩
      intro p hp
      exact hter.2 p (List.mem_of_mem_filter hp)

theorem terminalFor_applyReceiverOps (h : ByteSeq → ByteSeq)
    (st : ReceiverState) (id : Int) (ops : List ReceiverOp)
    (hter : TerminalFor st id) :
    TerminalFor (applyReceiverOps h st ops) id := by
  induction ops generalizing st with
  | nil => exact hter
  | cons op ops ih =>
    exact ih (applyReceiverOp h st op) (terminalFor_applyReceiverOp h st id op hter)

theorem terminalFor_no_resolve (h : ByteSeq → ByteSeq) (st : ReceiverState)
    (id : Int) (hter : TerminalFor st id) :
    ∀ w, ∃ e, receiveDecommitment h st id w = .error e := by
  intro w
  have hfind : st.pending.find? (fun p => p.id == id) = none :=
    List.find?_eq_none.2 (fun p hp => by simp [hter.2 p hp])
  unfold receiveDecommitment
  cases hinit : CmtSimpleHashDecommitmentMessage.initFromString w with
  | none => exact ⟨.FormatError, rfl⟩
  | some m =>
    cases hr : m.r with
    | none => exact ⟨.FormatError, by simp [hr]⟩
    | some rv => exact ⟨.UnknownSessionError, by simp [hr, hfind]⟩

/-! Claim theorems. -/

/-- Claim C10: a `CmtSimpleHashCommitmentMessage` constructed with no
arguments has a null commitment and id `0`, so `getCommitment` can return
null at the public interface. -/
theorem cmt_default_message_null :
    CmtSimpleHashCommitmentMessage.mk0.getCommitment = none ∧
    CmtSimpleHashCommitmentMessage.mk0.getId = 0 :=
  ⟨rfl, rfl⟩

/-- Claim C5: `verifyDecommitment` is a pure function of its two message
arguments — its verdict does not depend on the receiver's stored
pending-session state, the call leaves that state unchanged, and it agrees
with the state-free recomputation-and-compare function, so two invocations
on the same `(commitmentMsg, decommitmentMsg)` pair always yield the same
verdict. -/
theorem cmt_verifyDecommitment_pure (h : ByteSeq → ByteSeq)
    (st st' : ReceiverState) (cm : CmtSimpleHashCommitmentMessage)
    (dm : CmtSimpleHashDecommitmentMessage) :
    (verifyDecommitmentM h st cm dm).1 = (verifyDecommitmentM h st' cm dm).1 ∧
    (verifyDecommitmentM h st cm dm).2 = st ∧
    (verifyDecommitmentM h st cm dm).1 = verifyDecommitment h cm dm :=
  ⟨rfl, rfl, rfl⟩

/-- Claim C3: on a freshly reset hash device, `computeCommitment` produces
exactly the digest `Hash(r ‖ x)` — `r` fed first, then `x`, in that fixed
order — and invokes the hash's finalization exactly once; the digest used
throughout commitment and verification (`hashOf`) is that same value. -/
theorem cmt_computeCommitment_hash_once (h : ByteSeq → ByteSeq) (x r : ByteSeq)
    (st : HashDevice) (hbuf : st.buf = []) :
    computeCommitment h x r st = (h (r ++ x), ⟨[], st.finalCount + 1⟩) ∧
    hashOf h x r = h (r ++ x) := by
  constructor
  · simp [computeCommitment, hashUpdate, hashFinal, hbuf]
  · exact hashOf_eq h x r

/-- Witness for C3 at a concrete device, hash, and inputs. -/
theorem cmt_computeCommitment_hash_once_witness :
    (⟨[], 5⟩ : HashDevice).buf = [] ∧
    (computeCommitment (fun l => l) [7] [3] ⟨[], 5⟩ = ([3, 7], ⟨[], 5 + 1⟩) ∧
      hashOf (fun l => l) [7] [3] = [3, 7]) :=
  ⟨rfl, cmt_computeCommitment_hash_once (fun l => l) [7] [3] ⟨[], 5⟩ rfl⟩

/-- Claim C6: the wire codec round-trips exactly — serializing a commitment
message (id and digest) or a decommitment message (r and x) with `toString`
and parsing the result with `initFromString` reproduces identical field
values, for every message whose fields fit the fixed-width wire format. -/
theorem cmt_wire_roundtrip (id : Int) (d rv xv : ByteSeq)
    (hlo : -(2 ^ 63) ≤ id) (hhi : id < 2 ^ 63)
    (hd : d.length < 2 ^ 64) (hr : rv.length < 2 ^ 64) (hx : xv.length < 2 ^ 64) :
    (∃ w, CmtSimpleHashCommitmentMessage.toString ⟨some d, id⟩ = some w ∧
      CmtSimpleHashCommitmentMessage.initFromString w = some ⟨some d, id⟩) ∧
    (∃ w, CmtSimpleHashDecommitmentMessage.toString ⟨some rv, xv⟩ = some w ∧
      CmtSimpleHashDecommitmentMessage.initFromString w = some ⟨some rv, xv⟩) :=
  ⟨⟨_, cmtMsg_toString_eq d id, cmtMsg_round d id hlo hhi hd⟩,
    ⟨_, dcmMsg_toString_eq rv xv, dcmMsg_round rv xv hr hx⟩⟩

/-- Witness for C6 at a concrete id, digest, blinding value and committed
value. -/
theorem cmt_wire_roundtrip_witness :
    (-(2 ^ 63) ≤ (1 : Int) ∧ (1 : Int) < 2 ^ 63 ∧
      ([9, 4] : ByteSeq).length < 2 ^ 64 ∧ ([5] : ByteSeq).length < 2 ^ 64 ∧
      ([7, 7] : ByteSeq).length < 2 ^ 64) ∧
    ((∃ w, CmtSimpleHashCommitmentMessage.toString ⟨some [9, 4], 1⟩ = some w ∧
      CmtSimpleHashCommitmentMessage.initFromString w = some ⟨some [9, 4], 1⟩) ∧
    (∃ w, CmtSimpleHashDecommitmentMessage.toString ⟨some [5], [7, 7]⟩ = some w ∧
      CmtSimpleHashDecommitmentMessage.initFromString w = some ⟨some [5], [7, 7]⟩)) :=
  ⟨⟨by decide, by decide, by decide, by decide, by decide⟩,
    cmt_wire_roundtrip 1 [9, 4] [5] [7, 7] (by decide) (by decide) (by decide)
      (by decide) (by decide)⟩

/-- Claim C7: a decommitment for an id that was never stored as pending
yields `UnknownSessionError` — never an ACCEPT or REJECT verdict — and the
committer's `generateDecommitmentMsg` likewise fails with the
unknown-session error when no pending state exists for the id. -/
theorem cmt_unknown_session_error (h : ByteSeq → ByteSeq) (st : ReceiverState)
    (cst : CommitterState) (id : Int) (w : ByteSeq) (rv xv : ByteSeq)
    (hw : CmtSimpleHashDecommitmentMessage.initFromString w = some ⟨some rv, xv⟩)
    (hrnone : ∀ p ∈ st.pending, p.id ≠ id)
    (hcnone : ∀ p ∈ cst.pending, p.id ≠ id) :
    receiveDecommitment h st id w = .error .UnknownSessionError ∧
    (∀ v st', receiveDecommitment h st id w ≠ .ok (v, st')) ∧
    generateDecommitmentMsg cst id = .error .UnknownSessionError := by
  have hfind : st.pending.find? (fun p => p.id == id) = none :=
    List.find?_eq_none.2 (fun p hp => by simp [hrnone p hp])
  have hcfind : cst.pending.find? (fun p => p.id == id) = none :=
    List.find?_eq_none.2 (fun p hp => by simp [hcnone p hp])
  have hrecv : receiveDecommitment h st id w = .error .UnknownSessionError := by
    unfold receiveDecommitment
    rw [hw]
    simp [hfind]
  refine ⟨hrecv, ?_, ?_⟩
  · intro v st'
    rw [hrecv]
    simp
  · unfold generateDecommitmentMsg
    rw [hcfind]

/-- Witness for C7 at a concrete empty receiver and committer, id 1, and a
well-formed decommitment wire message. -/
theorem cmt_unknown_session_error_witness :
    CmtSimpleHashDecommitmentMessage.initFromString
      [1, 0, 0, 0, 0, 0, 0, 0, 5, 1, 0, 0, 0, 0, 0, 0, 0, 7] =
      some ⟨some [5], [7]⟩ ∧
    (∀ p ∈ (⟨[], []⟩ : ReceiverState).pending, p.id ≠ 1) ∧
    (∀ p ∈ (⟨[], 0⟩ : CommitterState).pending, p.id ≠ 1) ∧
    (receiveDecommitment (fun l => l) ⟨[], []⟩ 1
        [1, 0, 0, 0, 0, 0, 0, 0, 5, 1, 0, 0, 0, 0, 0, 0, 0, 7] =
        .error .UnknownSessionError ∧
      (∀ v st', receiveDecommitment (fun l => l) ⟨[], []⟩ 1
        [1, 0, 0, 0, 0, 0, 0, 0, 5, 1, 0, 0, 0, 0, 0, 0, 0, 7] ≠ .ok (v, st')) ∧
      generateDecommitmentMsg ⟨[], 0⟩ 1 = .error .UnknownSessionError) :=
  ⟨by decide, by decide, by decide,
    cmt_unknown_session_error (fun l => l) ⟨[], []⟩ ⟨[], 0⟩ 1
      [1, 0, 0, 0, 0, 0, 0, 0, 5, 1, 0, 0, 0, 0, 0, 0, 0, 7] [5] [7]
      (by decide) (by decide) (by decide)⟩

/-- Claim C8: a commitment message whose id is already pending in the
receiver's table makes `receiveCommitment` fail with the duplicate-id error;
it does not succeed, so the earlier pending digest is not overwritten. -/
theorem cmt_duplicate_session_error (st : ReceiverState) (id : Int)
    (d : ByteSeq) (w : ByteSeq)
    (hw : CmtSimpleHashCommitmentMessage.initFromString w = some ⟨some d, id⟩)
    (hdup : ∃ p ∈ st.pending, p.id = id) :
    receiveCommitment st w = .error .DuplicateSessionError ∧
    ∀ rid st', receiveCommitment st w ≠ .ok (rid, st') := by
  have hany : st.pending.any (fun p => p.id == id) = true := by
    rcases hdup with ⟨p, hp, hpid⟩
    exact List.any_eq_true.2 ⟨p, hp, by simp [hpid]⟩
  have hrecv : receiveCommitment st w = .error .DuplicateSessionError := by
    unfold receiveCommitment
    rw [hw]
    simp [hany]
  refine ⟨hrecv, ?_⟩
  intro rid st'
  rw [hrecv]
  simp

/-- Witness for C8 at a concrete receiver already holding id 1 and a
well-formed commitment wire message for id 1. -/
theorem cmt_duplicate_session_error_witness :
    CmtSimpleHashCommitmentMessage.initFromString
      [1, 0, 0, 0, 0, 0, 0, 0, 1, 0, 0, 0, 0, 0, 0, 0, 9] = some ⟨some [9], 1⟩ ∧
    (∃ p ∈ (⟨[⟨1, [2]⟩], []⟩ : ReceiverState).pending, p.id = 1) ∧
    (receiveCommitment ⟨[⟨1, [2]⟩], []⟩
        [1, 0, 0, 0, 0, 0, 0, 0, 1, 0, 0, 0, 0, 0, 0, 0, 9] =
        .error .DuplicateSessionError ∧
      ∀ rid st', receiveCommitment ⟨[⟨1, [2]⟩], []⟩
        [1, 0, 0, 0, 0, 0, 0, 0, 1, 0, 0, 0, 0, 0, 0, 0, 9] ≠ .ok (rid, st')) :=
  ⟨by decide, by decide,
    cmt_duplicate_session_error ⟨[⟨1, [2]⟩], []⟩ 1 [9]
      [1, 0, 0, 0, 0, 0, 0, 0, 1, 0, 0, 0, 0, 0, 0, 0, 9] (by decide) (by decide)⟩

/-- Claim C9: each successful `generateCommitmentMsg` reads exactly the next
`n` bytes of the random stream at the current cursor as the blinding value
`r` and advances the cursor past them, so two commitment sessions sample
their blinding values from disjoint positions of the stream — `r` is fresh
per commitment and never reused across sessions. -/
theorem cmt_fresh_blinding_sampling (h : ByteSeq → ByteSeq) (rng : Nat → Nat)
    (n : Nat) (st st1 st2 : CommitterState) (x1 x2 : ByteSeq) (id1 id2 : Int)
    (m1 m2 : CmtSimpleHashCommitmentMessage)
    (h1 : generateCommitmentMsg h rng n st x1 id1 = .ok (m1, st1))
    (h2 : generateCommitmentMsg h rng n st1 x2 id2 = .ok (m2, st2)) :
    st1.pos = st.pos + n ∧ st2.pos = st.pos + n + n ∧
    (sampleSeg rng st.pos n).length = n ∧
    (∃ rest, st2.pending =
      ⟨id2, sampleSeg rng (st.pos + n) n, x2,
        hashOf h x2 (sampleSeg rng (st.pos + n) n)⟩ ::
      ⟨id1, sampleSeg rng st.pos n, x1, hashOf h x1 (sampleSeg rng st.pos n)⟩ ::
      rest) ∧
    (∀ i j, i < n → j < n → st.pos + i ≠ st.pos + n + j) := by
  obtain ⟨-, hst1⟩ := generateCommitmentMsg_ok h rng n st x1 id1 m1 st1 h1
  obtain ⟨-, hst2⟩ := generateCommitmentMsg_ok h rng n st1 x2 id2 m2 st2 h2
  subst hst1
  subst hst2
  refine ⟨rfl, rfl, by simp [sampleSeg], ⟨st.pending, rfl⟩, ?_⟩
  intro i j hi hj
  omega

/-- Witness for C9: two consecutive commitments from a fresh committer. -/
theorem cmt_fresh_blinding_sampling_witness :
    generateCommitmentMsg (fun l => l) (fun i => i) 1 ⟨[], 0⟩ [3] 1 =
      .ok (⟨some [0, 3], 1⟩, ⟨[⟨1, [0], [3], [0, 3]⟩], 1⟩) ∧
    generateCommitmentMsg (fun l => l) (fun i => i) 1 ⟨[⟨1, [0], [3], [0, 3]⟩], 1⟩
        [4] 2 =
      .ok (⟨some [1, 4], 2⟩, ⟨[⟨2, [1], [4], [1, 4]⟩, ⟨1, [0], [3], [0, 3]⟩], 2⟩) ∧
    ((⟨[⟨1, [0], [3], [0, 3]⟩], 1⟩ : CommitterState).pos = (0 : Nat) + 1 ∧
      (⟨[⟨2, [1], [4], [1, 4]⟩, ⟨1, [0], [3], [0, 3]⟩], 2⟩ : CommitterState).pos =
        (0 : Nat) + 1 + 1 ∧
      (sampleSeg (fun i => i) 0 1).length = 1 ∧
      (∃ rest,
        (⟨[⟨2, [1], [4], [1, 4]⟩, ⟨1, [0], [3], [0, 3]⟩], 2⟩ :
            CommitterState).pending =
          ⟨2, sampleSeg (fun i => i) (0 + 1) 1, [4],
            hashOf (fun l => l) [4] (sampleSeg (fun i => i) (0 + 1) 1)⟩ ::
          ⟨1, sampleSeg (fun i => i) 0 1, [3],
            hashOf (fun l => l) [3] (sampleSeg (fun i => i) 0 1)⟩ :: rest) ∧
      (∀ i j, i < 1 → j < 1 → (0 : Nat) + i ≠ 0 + 1 + j)) :=
  ⟨rfl, rfl,
    cmt_fresh_blinding_sampling (fun l => l) (fun i => i) 1 ⟨[], 0⟩
      ⟨[⟨1, [0], [3], [0, 3]⟩], 1⟩
      ⟨[⟨2, [1], [4], [1, 4]⟩, ⟨1, [0], [3], [0, 3]⟩], 2⟩
      [3] [4] 1 2 ⟨some [0, 3], 1⟩ ⟨some [1, 4], 2⟩ rfl rfl⟩

/-- Claim C4: per session id the receiver's lifecycle is INIT → COMMITTED →
terminal ACCEPTED or REJECTED: once `receiveDecommitment` has resolved an id
to a verdict, the pending entry for that id is removed, and under every
later sequence of receiver operations the id never re-enters the pending
(COMMITTED) table and can never be resolved again — every later
`receiveDecommitment` for it returns an error, never a verdict. -/
theorem cmt_receiver_resolution_terminal (h : ByteSeq → ByteSeq)
    (st st' : ReceiverState) (id : Int) (w : ByteSeq) (v : CmtVerdict)
    (hok : receiveDecommitment h st id w = .ok (v, st')) :
    (∀ p ∈ st'.pending, p.id ≠ id) ∧
    (∀ ops, ∀ p ∈ (applyReceiverOps h st' ops).pending, p.id ≠ id) ∧
    (∀ ops w2, ∃ e,
      receiveDecommitment h (applyReceiverOps h st' ops) id w2 = .error e) ∧
    (∀ ops w2 v2 st2,
      receiveDecommitment h (applyReceiverOps h st' ops) id w2 ≠
        .ok (v2, st2)) := by
  have hst' := receiveDecommitment_ok_state h st id w v st' hok
  have hter : TerminalFor st' id := by
    subst hst'
    refine ⟨List.mem_cons_self _ _, ?_⟩
    intro p hp
    have hf := List.of_mem_filter hp
    simpa using hf
  have hterops : ∀ ops, TerminalFor (applyReceiverOps h st' ops) id :=
    fun ops => terminalFor_applyReceiverOps h st' id ops hter
  refine ⟨hter.2, fun ops => (hterops ops).2,
    fun ops w2 => terminalFor_no_resolve h _ id (hterops ops) w2, ?_⟩
  intro ops w2 v2 st2 hcontra
  obtain ⟨e, he⟩ := terminalFor_no_resolve h _ id (hterops ops) w2
  rw [he] at hcontra
  exact absurd hcontra (by simp)

/-- Witness for C4: a receiver holding id 1 resolves it to ACCEPT, after
which the pending table is empty, id 1 is recorded as resolved, and no later
operation sequence lets id 1 re-enter the table or be resolved again. -/
theorem cmt_receiver_resolution_terminal_witness :
    receiveDecommitment (fun l => l) ⟨[⟨1, [0, 5]⟩], []⟩ 1
      [1, 0, 0, 0, 0, 0, 0, 0, 0, 1, 0, 0, 0, 0, 0, 0, 0, 5] =
      .ok (.ACCEPT [5], ⟨[], [1]⟩) ∧
    ((∀ p ∈ (⟨[], [1]⟩ : ReceiverState).pending, p.id ≠ 1) ∧
      (∀ ops, ∀ p ∈
        (applyReceiverOps (fun l => l) ⟨[], [1]⟩ ops).pending, p.id ≠ 1) ∧
      (∀ ops w2, ∃ e, receiveDecommitment (fun l => l)
        (applyReceiverOps (fun l => l) ⟨[], [1]⟩ ops) 1 w2 = .error e) ∧
      (∀ ops w2 v2 st2, receiveDecommitment (fun l => l)
        (applyReceiverOps (fun l => l) ⟨[], [1]⟩ ops) 1 w2 ≠ .ok (v2, st2))) :=
  ⟨rfl, cmt_receiver_resolution_terminal (fun l => l) ⟨[⟨1, [0, 5]⟩], []⟩
    ⟨[], [1]⟩ 1 [1, 0, 0, 0, 0, 0, 0, 0, 0, 1, 0, 0, 0, 0, 0, 0, 0, 5]
    (.ACCEPT [5]) rfl⟩

/-- Claim C2: for a fixed committed digest `c = Hash(r ‖ x)` with a
collision-free (injective) hash, altering any single byte of the transmitted
`r` or `x` before the decommit step makes the receiver's verification —
`receiveDecommitment` as well as `verifyDecommitment` — return the REJECT
verdict as a first-class returned outcome value (an `.ok` result carrying
REJECT), not an error. -/
theorem cmt_single_byte_alteration_rejects (h : ByteSeq → ByteSeq)
    (hinj : Function.Injective h) (id : Int) (r x r' x' : ByteSeq) (w : ByteSeq)
    (hr64 : r.length < 2 ^ 64) (hx64 : x.length < 2 ^ 64)
    (halter :
      (∃ i b, ∃ hi : i < r.length, b ≠ r.get ⟨i, hi⟩ ∧ r' = r.set i b ∧ x' = x) ∨
      (r' = r ∧ ∃ j b, ∃ hj : j < x.length, b ≠ x.get ⟨j, hj⟩ ∧ x' = x.set j b))
    (hw : CmtSimpleHashDecommitmentMessage.toString ⟨some r', x'⟩ = some w) :
    receiveDecommitment h ⟨[⟨id, hashOf h x r⟩], []⟩ id w =
      .ok (.REJECT, ⟨[], [id]⟩) ∧
    verifyDecommitment h ⟨some (hashOf h x r), id⟩ ⟨some r', x'⟩ =
      some .REJECT := by
  have hr'64 : r'.length < 2 ^ 64 := by
    rcases halter with ⟨i, b, hi, hb, hr', hx'⟩ | ⟨hr', hrest⟩
    · rw [hr']; simpa using hr64
    · rw [hr']; exact hr64
  have hx'64 : x'.length < 2 ^ 64 := by
    rcases halter with ⟨i, b, hi, hb, hr', hx'⟩ | ⟨hr', j, b, hj, hb, hx'⟩
    · rw [hx']; exact hx64
    · rw [hx']; simpa using hx64
  have hwval : w = (natToLE 8 r'.length ++ r') ++ (natToLE 8 x'.length ++ x') :=
    Option.some_injective _ (hw.symm.trans (dcmMsg_toString_eq r' x'))
  have hparse : CmtSimpleHashDecommitmentMessage.initFromString w =
      some ⟨some r', x'⟩ := by
    rw [hwval]
    exact dcmMsg_round r' x' hr'64 hx'64
  have hne : r' ++ x' ≠ r ++ x := by
    rcases halter with ⟨i, b, hi, hb, hr', hx'⟩ | ⟨hr', j, b, hj, hb, hx'⟩
    · subst hx'
      subst hr'
      intro heq
      exact set_ne_of_ne_get r i b hi hb (List.append_cancel_right heq)
    · subst hr'
      subst hx'
      intro heq
      exact set_ne_of_ne_get x j b hj hb (List.append_cancel_left heq)
  have hcne : hashOf h x' r' ≠ hashOf h x r := by
    rw [hashOf_eq, hashOf_eq]
    intro heq
    exact hne (hinj heq)
  have hfind : List.find? (fun p => p.id == id)
      ([⟨id, hashOf h x r⟩] : List PendingReceiverState) =
      some ⟨id, hashOf h x r⟩ := by
    simp [List.find?_cons]
  constructor
  · unfold receiveDecommitment
    simp only [hparse, hfind]
    rw [if_neg hcne]
    simp
  · simp [verifyDecommitment, hcne]

/-- Witness for C2: the identity hash (injective), `r = [0]`, `x = [5]`,
and the single byte of `r` flipped to `1`. -/
theorem cmt_single_byte_alteration_rejects_witness :
    Function.Injective (fun l : ByteSeq => l) ∧
    ([0] : ByteSeq).length < 2 ^ 64 ∧ ([5] : ByteSeq).length < 2 ^ 64 ∧
    ((∃ i b, ∃ hi : i < ([0] : ByteSeq).length,
        b ≠ ([0] : ByteSeq).get ⟨i, hi⟩ ∧ ([1] : ByteSeq) = [0].set i b ∧
        ([5] : ByteSeq) = [5]) ∨
      (([1] : ByteSeq) = [0] ∧ ∃ j b, ∃ hj : j < ([5] : ByteSeq).length,
        b ≠ ([5] : ByteSeq).get ⟨j, hj⟩ ∧ ([5] : ByteSeq) = [5].set j b)) ∧
    CmtSimpleHashDecommitmentMessage.toString ⟨some [1], [5]⟩ =
      some [1, 0, 0, 0, 0, 0, 0, 0, 1, 1, 0, 0, 0, 0, 0, 0, 0, 5] ∧
    (receiveDecommitment (fun l => l) ⟨[⟨2, hashOf (fun l => l) [5] [0]⟩], []⟩ 2
        [1, 0, 0, 0, 0, 0, 0, 0, 1, 1, 0, 0, 0, 0, 0, 0, 0, 5] =
        .ok (.REJECT, ⟨[], [2]⟩) ∧
      verifyDecommitment (fun l => l) ⟨some (hashOf (fun l => l) [5] [0]), 2⟩
        ⟨some [1], [5]⟩ = some .REJECT) :=
  ⟨fun a b hab => hab, by decide, by decide,
    Or.inl ⟨0, 1, by decide, by decide, rfl, rfl⟩, by decide,
    cmt_single_byte_alteration_rejects (fun l => l) (fun a b hab => hab) 2
      [0] [5] [1] [5] [1, 0, 0, 0, 0, 0, 0, 0, 1, 1, 0, 0, 0, 0, 0, 0, 0, 5]
      (by decide) (by decide)
      (Or.inl ⟨0, 1, by decide, by decide, rfl, rfl⟩) (by decide)⟩

/-- Claim C1: running the full protocol from fresh states — the committer's
`generateCommitmentMsg(x, id)` and `generateDecommitmentMsg(id)`, their
serialized messages consumed by the receiver's `receiveCommitment()` and
`receiveDecommitment(id)` — yields the verdict ACCEPT with revealed value
equal to `x`, for every byte sequence `x` and every id and security
parameter fitting the wire format. -/
theorem cmt_protocol_roundtrip (h : ByteSeq → ByteSeq) (rng : Nat → Nat)
    (n : Nat) (x : ByteSeq) (id : Int)
    (hlo : -(2 ^ 63) ≤ id) (hhi : id < 2 ^ 63)
    (hx : x.length < 2 ^ 64) (hn : n < 2 ^ 64)
    (hdig : ∀ s, (h s).length < 2 ^ 64) :
    ∃ cm w1 cst1 rst1 dm w2 rst2,
      generateCommitmentMsg h rng n ⟨[], 0⟩ x id = .ok (cm, cst1) ∧
      CmtSimpleHashCommitmentMessage.toString cm = some w1 ∧
      receiveCommitment ⟨[], []⟩ w1 = .ok (id, rst1) ∧
      generateDecommitmentMsg cst1 id = .ok dm ∧
      CmtSimpleHashDecommitmentMessage.toString dm = some w2 ∧
      receiveDecommitment h rst1 id w2 = .ok (.ACCEPT x, rst2) := by
  have hclen : (hashOf h x (sampleSeg rng 0 n)).length < 2 ^ 64 := by
    rw [hashOf_eq]
    exact hdig _
  have hrlen : (sampleSeg rng 0 n).length < 2 ^ 64 := by
    simpa [sampleSeg] using hn
  refine ⟨⟨some (hashOf h x (sampleSeg rng 0 n)), id⟩, _,
    ⟨[⟨id, sampleSeg rng 0 n, x, hashOf h x (sampleSeg rng 0 n)⟩], 0 + n⟩,
    ⟨[⟨id, hashOf h x (sampleSeg rng 0 n)⟩], []⟩,
    ⟨some (sampleSeg rng 0 n), x⟩, _, ⟨[], [id]⟩,
    ?_, rfl, ?_, ?_, rfl, ?_⟩
  · rfl
  · unfold receiveCommitment
    rw [cmtMsg_round _ id hlo hhi hclen]
    rfl
  · unfold generateDecommitmentMsg
    have hfindc : List.find? (fun p => p.id == id)
        ([⟨id, sampleSeg rng 0 n, x, hashOf h x (sampleSeg rng 0 n)⟩] :
          List PendingCommitterState) =
        some ⟨id, sampleSeg rng 0 n, x, hashOf h x (sampleSeg rng 0 n)⟩ := by
      simp [List.find?_cons]
    rw [hfindc]
  · unfold receiveDecommitment
    rw [dcmMsg_round _ _ hrlen hx]
    have hfindr : List.find? (fun p => p.id == id)
        ([⟨id, hashOf h x (sampleSeg rng 0 n)⟩] : List PendingReceiverState) =
        some ⟨id, hashOf h x (sampleSeg rng 0 n)⟩ := by
      simp [List.find?_cons]
    simp only [hfindr]
    simp

/-- Witness for C1: a one-byte digest function, the identity-position random
stream, security parameter 2, `x = [7, 7]`, id 1. -/
theorem cmt_protocol_roundtrip_witness :
    (-(2 ^ 63) ≤ (1 : Int) ∧ (1 : Int) < 2 ^ 63 ∧
      ([7, 7] : ByteSeq).length < 2 ^ 64 ∧ (2 : Nat) < 2 ^ 64 ∧
      (∀ s, ((fun l : ByteSeq => [l.length % 256]) s).length < 2 ^ 64)) ∧
    (∃ cm w1 cst1 rst1 dm w2 rst2,
      generateCommitmentMsg (fun l : ByteSeq => [l.length % 256]) (fun i => i) 2
        ⟨[], 0⟩ [7, 7] 1 = .ok (cm, cst1) ∧
      CmtSimpleHashCommitmentMessage.toString cm = some w1 ∧
      receiveCommitment ⟨[], []⟩ w1 = .ok (1, rst1) ∧
      generateDecommitmentMsg cst1 1 = .ok dm ∧
      CmtSimpleHashDecommitmentMessage.toString dm = some w2 ∧
      receiveDecommitment (fun l : ByteSeq => [l.length % 256]) rst1 1 w2 =
        .ok (.ACCEPT [7, 7], rst2)) :=
  ⟨⟨by decide, by decide, by decide, by decide,
      fun s => (by decide : (1 : Nat) < 2 ^ 64)⟩,
    cmt_protocol_roundtrip (fun l : ByteSeq => [l.length % 256]) (fun i => i) 2
      [7, 7] 1 (by decide) (by decide) (by decide) (by decide)
      (fun s => (by decide : (1 : Nat) < 2 ^ 64))⟩
